import Mathlib

/-!
Verification of the request-batching and streaming-fanout engine of
NeuralRipper (`backend/app/handlers/queue_handler.py`, with the
configuration surface of `backend/app/config.py`).

The asyncio code is embedded shallowly: each channel (an `asyncio.Queue`)
is a FIFO list of items; the values a coroutine puts on a channel are
computed as an explicit trace; time is exact rational time; the upstream
httpx interaction of one request is summarised by its observable outcome
(the parsed SSE lines on success, or the fragments already written plus
the exception message on failure).
-/

namespace NeuralRipper

/-- One line of the Server-Sent-Events stream after parsing, as consumed by
the loop of `_stream_single_request`. A line whose strip is empty, the
sentinel line `data: [DONE]`, and a line that does not start with
`data: ` all fall through without effect (`skip`); a `data: ` line is
parsed and carries one delta-content string per element of
`data.get("choices", [])`, where an absent `delta` or absent `content`
reads as `""` (`choice.get("delta", {})`, `delta.get("content", "")`). -/
inductive SSELine where
  | skip
  | event (contents : List String)

/-- Delta contents carried by one parsed line. -/
def SSELine.contents : SSELine → List String
  | .skip => []
  | .event cs => cs

/-- Fragments `_stream_single_request` puts on the response channel for one
line: for each choice, `if content: await response_channel.put(content)` —
only the non-empty contents, in choice order. -/
def lineWrites (l : SSELine) : List String :=
  l.contents.filter (fun c => c ≠ "")

/-- All delta contents the upstream call emitted across its lines, in
emission order (including empty ones). -/
def upstreamContents (lines : List SSELine) : List String :=
  (lines.map SSELine.contents).flatten

/-- All fragments the try-body of `_stream_single_request` puts on the
response channel over a successful upstream interaction. -/
def bodyWrites (lines : List SSELine) : List String :=
  (lines.map lineWrites).flatten

/-- Observable outcome of the httpx streaming interaction for one request:
either the full list of SSE lines is processed (`success`), or an
exception interrupts the try-body after some prefix `written` of
fragments was already put (`failure`, with `msg` the string of the
exception). -/
inductive UpstreamOutcome where
  | success (lines : List SSELine)
  | failure (written : List String) (msg : String)

/-- The exact sequence of values `_stream_single_request` puts on its
response channel: the try-body fragments; on failure additionally the
error-as-fragment `f"Error: {str(e)}"` from the except branch; and in
every case the terminal `None` from the finally branch. -/
def channelWrites : UpstreamOutcome → List (Option String)
  | .success lines => (bodyWrites lines).map some ++ [none]
  | .failure written msg => written.map some ++ [some ("Error: " ++ msg), none]

/-- An `asyncio.Queue`: an unbounded FIFO channel, represented by its
current items, front first. -/
structure Chan (α : Type) where
  items : List α

/-- Chan.put appends at the back (`await q.put(x)`). -/
def Chan.put {α : Type} (c : Chan α) (a : α) : Chan α :=
  ⟨c.items ++ [a]⟩

/-- Putting a whole trace of values, one `put` at a time, in order. -/
def Chan.putAll {α : Type} (c : Chan α) (ws : List α) : Chan α :=
  ws.foldl Chan.put c

/-- Chan.get removes the front item (`await q.get()`); `none` means the
consumer would block awaiting a further put. -/
def Chan.get {α : Type} : Chan α → Option (α × Chan α)
  | ⟨[]⟩ => none
  | ⟨a :: rest⟩ => some (a, ⟨rest⟩)

/-- The read loop of `stream_inference` over the values available on its
response channel: `token = await response_channel.get()`; `break` on
`None`; otherwise `yield token` and loop. The result is the list of
yielded tokens. -/
def readLoop : List (Option String) → List String
  | [] => []
  | none :: _ => []
  | some t :: rest => t :: readLoop rest

/-- Tokens `stream_inference` yields when reading a channel until the
end-of-stream marker. -/
def Chan.readAll (c : Chan (Option String)) : List String :=
  readLoop c.items

/-! Basic lemmas about the channel and the two loops. -/

theorem Chan.putAll_items {α : Type} (ws : List α) (c : Chan α) :
    (Chan.putAll c ws).items = c.items ++ ws := by
  induction ws generalizing c with
  | nil => simp [Chan.putAll]
  | cons a rest ih =>
      simp [Chan.putAll] at ih ⊢
      rw [ih]
      simp [Chan.put]

theorem readLoop_map_some (fs : List String) (rest : List (Option String)) :
    readLoop (fs.map some ++ rest) = fs ++ readLoop rest := by
  induction fs with
  | nil => simp
  | cons f fs ih => simp [readLoop, ih]

theorem readLoop_closed (fs : List String) (rest : List (Option String)) :
    readLoop (fs.map some ++ none :: rest) = fs := by
  rw [readLoop_map_some]
  simp [readLoop]

theorem readAll_putAll (ws : List (Option String)) :
    Chan.readAll (Chan.putAll ⟨[]⟩ ws) = readLoop ws := by
  simp [Chan.readAll, Chan.putAll_items]

theorem bodyWrites_filter (lines : List SSELine) :
    bodyWrites lines = (upstreamContents lines).filter (fun c => c ≠ "") := by
  induction lines with
  | nil => simp [bodyWrites, upstreamContents]
  | cons l rest ih =>
      simp only [bodyWrites, upstreamContents, List.map_cons, List.flatten_cons,
        List.filter_append] at ih ⊢
      rw [ih, lineWrites]

/-- A queued request, as enqueued by `stream_inference`: the prompt and (an
identifier of) its private one-time response channel. -/
structure PendingRequest where
  prompt : String
  sink : Nat

/-- The unpacking `prompts, response_channels = zip(*batch)` at the top of
`_process_batch`: on a non-empty batch it yields the list of prompts and
the list of channels, in batch order; on an empty batch `zip()` yields an
empty iterator and the two-name unpacking raises `ValueError`, modelled
as `none`. -/
def unzipBatch (batch : List PendingRequest) : Option (List String × List Nat) :=
  match batch with
  | [] => none
  | _ :: _ => some (batch.map PendingRequest.prompt, batch.map PendingRequest.sink)

/-- The argument pairs of the tasks `_process_batch` creates:
`for i, prompt in enumerate(prompts)` it starts
`_stream_single_request(url, headers, model, prompt, response_channels[i])`,
so task `i` is given `(prompts[i], response_channels[i])`. -/
def batchTasks (prompts : List String) (channels : List Nat) : List (String × Nat) :=
  prompts.zip channels

/-- The dispatch `_process_batch(model, batch)`: unpack the batch, create one
`_stream_single_request` task per prompt on the channel at the same index,
and `asyncio.gather(*tasks, return_exceptions=True)` — which returns only
after every task has reached a terminal state and swallows all exceptions.
`outcomes` gives the upstream outcome of each task, aligned with the
batch; the result maps each task to the pair (its channel id, the values
it wrote to that channel). -/
def processBatch (batch : List PendingRequest) (outcomes : List UpstreamOutcome) :
    Option (List (Nat × List (Option String))) :=
  match unzipBatch batch with
  | none => none
  | some (prompts, channels) =>
      some (((batchTasks prompts channels).zip outcomes).map
        (fun t => (t.1.2, channelWrites t.2)))

/-- All values written to channel `s` across a dispatch result, in order. -/
def sinkWrites (result : List (Nat × List (Option String))) (s : Nat) :
    List (Option String) :=
  ((result.filter (fun p => p.1 = s)).map Prod.snd).flatten

/-- Batching configuration set in `QueueHandler.__init__`: the literal
`self.batch_timeout = 0.1` (max wait time, 100 ms). -/
def batch_timeout : ℚ := 1/10

/-- Batching configuration set in `QueueHandler.__init__`: the literal
`self.max_batch_size = 5` (max requests per batch). -/
def max_batch_size : Nat := 5

/-- The loop of `_collect_batch`, driven by the arrival trace of the model
request queue. `arrivals` lists the pending and incoming items in arrival
order, each with its arrival time; `now` is the current clock and
`endTime` the deadline `start + batch_timeout` recorded on entry. Each
iteration re-checks `time.time() < end_time and len(batch) < max_batch_size`,
then `asyncio.wait_for(queue.get(), end_time - time.time())`: the wait
returns the next item iff it arrives before the deadline (advancing the
clock to its arrival time) and the item is appended; otherwise
`TimeoutError` is raised and the loop breaks. Time is exact rational
time, so scheduling slack is not modelled. -/
def collectGo (endTime : ℚ) (maxSize : Nat) (now : ℚ)
    (arrivals : List (ℚ × PendingRequest)) (batch : List PendingRequest) :
    List PendingRequest :=
  match arrivals with
  | [] => batch
  | (t, a) :: rest =>
      if now < endTime ∧ batch.length < maxSize then
        if t < endTime then
          collectGo endTime maxSize (max now t) rest (batch ++ [a])
        else batch
      else batch

/-- The call `_collect_batch(model)`: record
`end_time = time.time() + self.batch_timeout`, start from an empty batch
and run the collection loop. -/
def collectBatch (bt : ℚ) (maxSize : Nat) (startTime : ℚ)
    (arrivals : List (ℚ × PendingRequest)) : List PendingRequest :=
  collectGo (startTime + bt) maxSize startTime arrivals []

/-- What one iteration of the worker loop does with the collected batch:
`dispatch` stands for `asyncio.create_task(self._process_batch(model, batch))`
— spawned as independent background work, not awaited, so the loop
immediately proceeds to the next collection; `idle q` stands for
`await asyncio.sleep(q)`. -/
inductive WorkerAction where
  | dispatch (batch : List PendingRequest)
  | idle (seconds : ℚ)

/-- The body of `while True` in `_worker`: `if batch:` (non-empty) spawn the
dispatch, `else` sleep 0.1 s. -/
def workerStep (batch : List PendingRequest) : WorkerAction :=
  if batch.isEmpty then .idle (1/10) else .dispatch batch

/-- The worker loop observed over a finite window of collection cycles:
`cycles` lists the successive results of `_collect_batch`, and the loop —
which contains no `break` or `return` and hence no terminal state —
performs one action per cycle. -/
def workerRun (cycles : List (List PendingRequest)) : List WorkerAction :=
  cycles.map workerStep

/-- Shared state of the handler as touched by `stream_inference`: the
per-model request queues — `defaultdict(asyncio.Queue)`, modelled as a
total map that reads as the empty queue until first written — and a
supply of fresh response-channel identifiers (each call constructs a new
`asyncio.Queue()` object; `next_channel` numbers these allocations). -/
structure QHState where
  requests_queues : String → List (String × Nat)
  next_channel : Nat

/-- The handler state right after `__init__`: no queue holds any request. -/
def QHState.initial : QHState :=
  ⟨fun _ => [], 0⟩

/-- The submission half of `stream_inference(model, prompt)`: create a fresh
one-time response channel, then
`await self.requests_queues[model].put((prompt, response_channel))` —
the defaultdict creates the queue on first reference. Returns the new
state and the identifier of the fresh channel, which the read loop of
the same call then consumes. -/
def submit (s : QHState) (model prompt : String) : QHState × Nat :=
  (⟨fun m =>
      if m = model then s.requests_queues model ++ [(prompt, s.next_channel)]
      else s.requests_queues m,
    s.next_channel + 1⟩,
   s.next_channel)

/-- The environment as read by `config.Settings`, with values already parsed
(`float(...)` and `int(...)` are exact here); `none` means the variable
is unset, so the `os.getenv` default string applies. -/
structure ConfigEnv where
  batchTimeoutVar : Option ℚ
  maxBatchSizeVar : Option Nat
  defaultTemperatureVar : Option ℚ
  defaultMaxTokensVar : Option Nat

/-- Settings.BATCH_TIMEOUT = float(os.getenv("BATCH_TIMEOUT", "0.1")). -/
def Settings.BATCH_TIMEOUT (env : ConfigEnv) : ℚ :=
  env.batchTimeoutVar.getD (1/10)

/-- Settings.MAX_BATCH_SIZE = int(os.getenv("MAX_BATCH_SIZE", "5")). -/
def Settings.MAX_BATCH_SIZE (env : ConfigEnv) : Nat :=
  env.maxBatchSizeVar.getD 5

/-- Settings.DEFAULT_TEMPERATURE = float(os.getenv("DEFAULT_TEMPERATURE", "0.7")). -/
def Settings.DEFAULT_TEMPERATURE (env : ConfigEnv) : ℚ :=
  env.defaultTemperatureVar.getD (7/10)

/-- Settings.DEFAULT_MAX_TOKENS = int(os.getenv("DEFAULT_MAX_TOKENS", "500")). -/
def Settings.DEFAULT_MAX_TOKENS (env : ConfigEnv) : Nat :=
  env.defaultMaxTokensVar.getD 500

/-- The request body `_stream_single_request` builds for the upstream
`POST {url}/chat/completions` call. -/
structure Payload where
  model : String
  content : String
  stream : Bool
  temperature : ℚ
  max_tokens : Nat

/-- The literal payload dict of `_stream_single_request`: the given model,
one user message holding the prompt, `"stream": True`,
`"temperature": 0.7` and `"max_tokens": 500`. -/
def mkPayload (model prompt : String) : Payload :=
  ⟨model, prompt, true, 7/10, 500⟩

/-! Helper lemmas about the dispatcher. -/

theorem batchTasks_unzip (batch : List PendingRequest) :
    batchTasks (batch.map PendingRequest.prompt) (batch.map PendingRequest.sink)
      = batch.map (fun r => (r.prompt, r.sink)) := by
  induction batch with
  | nil => rfl
  | cons r rest ih => simpa [batchTasks] using ih

theorem processBatch_eq (batch : List PendingRequest) (outcomes : List UpstreamOutcome)
    (hb : batch ≠ []) :
    processBatch batch outcomes
      = some ((batch.zip outcomes).map (fun po => (po.1.sink, channelWrites po.2))) := by
  match batch with
  | [] => exact absurd rfl hb
  | r :: rest =>
      simp only [processBatch, unzipBatch, batchTasks_unzip, List.zip_map_left,
        List.map_map]
      refine congrArg some (List.map_congr_left ?_)
      intro po _
      simp [Prod.map]

theorem sinkWrites_nodup (result : List (Nat × List (Option String)))
    (hnodup : (result.map Prod.fst).Nodup) (i : Nat) (hi : i < result.length) :
    sinkWrites result result[i].1 = result[i].2 := by
  induction result generalizing i with
  | nil => exact absurd hi (by simp)
  | cons p rest ih =>
      simp only [List.map_cons, List.nodup_cons, List.mem_map] at hnodup
      match i with
      | 0 =>
          have hrest : rest.filter (fun q => q.1 = p.1) = [] := by
            rw [List.filter_eq_nil_iff]
            intro q hq
            simp only [decide_eq_true_eq]
            intro hq1
            exact hnodup.1 ⟨q, hq, hq1⟩
          simp [sinkWrites, List.filter_cons, hrest]
      | i + 1 =>
          have hi2 : i < rest.length := by simpa using hi
          have hne : p.1 ≠ rest[i].1 := by
            intro h
            exact hnodup.1 ⟨rest[i], by simp [List.getElem_mem], h.symm⟩
          have hrec := ih hnodup.2 i hi2
          simp only [List.getElem_cons_succ]
          rw [← hrec]
          simp [sinkWrites, List.filter_cons, hne]

theorem channelWrites_shape (o : UpstreamOutcome) :
    ∃ frags : List String, channelWrites o = frags.map some ++ [none] := by
  cases o with
  | success lines => exact ⟨bodyWrites lines, rfl⟩
  | failure w msg =>
      refine ⟨w ++ ["Error: " ++ msg], ?_⟩
      simp [channelWrites]

theorem channelWrites_getLast (o : UpstreamOutcome) :
    (channelWrites o).getLast? = some none := by
  obtain ⟨frags, hf⟩ := channelWrites_shape o
  simp [hf]

theorem dispatch_routes (batch : List PendingRequest) (outcomes : List UpstreamOutcome)
    (hlen : batch.length = outcomes.length)
    (hnodup : (batch.map PendingRequest.sink).Nodup)
    (result : List (Nat × List (Option String)))
    (hres : processBatch batch outcomes = some result)
    (i : Nat) (hi : i < batch.length) :
    sinkWrites result batch[i].sink = channelWrites (outcomes[i]) := by
  have hb : batch ≠ [] := by
    intro h
    rw [h] at hi
    exact absurd hi (by simp)
  rw [processBatch_eq batch outcomes hb, Option.some_inj] at hres
  subst hres
  have hiz : i < (batch.zip outcomes).length := by
    rw [List.length_zip, ← hlen, min_self]
    exact hi
  have hfst : ((batch.zip outcomes).map
      (fun po => (po.1.sink, channelWrites po.2))).map Prod.fst
      = batch.map PendingRequest.sink := by
    rw [List.map_map]
    have h1 : (Prod.fst ∘ fun po : PendingRequest × UpstreamOutcome =>
        (po.1.sink, channelWrites po.2))
        = PendingRequest.sink ∘ Prod.fst := rfl
    rw [h1, ← List.map_map, List.map_fst_zip batch outcomes (le_of_eq hlen)]
  have hi2 : i < ((batch.zip outcomes).map
      (fun po => (po.1.sink, channelWrites po.2))).length := by
    simpa using hiz
  have hsw := sinkWrites_nodup _ (by rw [hfst]; exact hnodup) i hi2
  simpa [List.getElem_zip] using hsw

/-! Helper lemmas about the collector and the worker loop. -/

theorem collectGo_length (endTime : ℚ) (maxSize : Nat)
    (arrivals : List (ℚ × PendingRequest)) :
    ∀ (now : ℚ) (batch : List PendingRequest), batch.length ≤ maxSize →
      (collectGo endTime maxSize now arrivals batch).length ≤ maxSize := by
  induction arrivals with
  | nil =>
      intro now batch h
      simpa [collectGo] using h
  | cons p rest ih =>
      intro now batch h
      obtain ⟨t, a⟩ := p
      simp only [collectGo]
      split_ifs with hg ht
      · exact ih _ _ (by simpa using hg.2)
      · exact h
      · exact h

theorem collectGo_mem (endTime : ℚ) (maxSize : Nat)
    (arrivals : List (ℚ × PendingRequest)) :
    ∀ (now : ℚ) (batch : List PendingRequest) (r : PendingRequest),
      r ∈ collectGo endTime maxSize now arrivals batch →
      r ∈ batch ∨ ∃ t, (t, r) ∈ arrivals ∧ t < endTime := by
  induction arrivals with
  | nil =>
      intro now batch r hr
      simp only [collectGo] at hr
      exact Or.inl hr
  | cons p rest ih =>
      intro now batch r hr
      obtain ⟨t, a⟩ := p
      simp only [collectGo] at hr
      split_ifs at hr with hg ht
      · rcases ih _ _ r hr with hb | ⟨t2, hmem, hlt⟩
        · rcases List.mem_append.1 hb with h1 | h2
          · exact Or.inl h1
          · right
            refine ⟨t, ?_, ht⟩
            simp [List.mem_singleton.1 h2]
        · exact Or.inr ⟨t2, by simp [hmem], hlt⟩
      · exact Or.inl hr
      · exact Or.inl hr

theorem collectGo_take (endTime : ℚ) (maxSize : Nat)
    (arrivals : List (ℚ × PendingRequest)) :
    ∀ (now : ℚ) (batch : List PendingRequest), now < endTime →
      (∀ p ∈ arrivals, p.1 < endTime) →
      collectGo endTime maxSize now arrivals batch
        = batch ++ (arrivals.map Prod.snd).take (maxSize - batch.length) := by
  induction arrivals with
  | nil =>
      intro now batch _ _
      simp [collectGo]
  | cons p rest ih =>
      intro now batch hnow hall
      obtain ⟨t, a⟩ := p
      have ht : t < endTime := hall (t, a) (by simp)
      simp only [collectGo]
      split_ifs with hg
      · rw [ih (max now t) (batch ++ [a]) (by simp [hnow, ht])
          (fun q hq => hall q (by simp [hq]))]
        have hlt : batch.length < maxSize := hg.2
        obtain ⟨k, hk⟩ : ∃ k, maxSize - batch.length = k + 1 :=
          ⟨maxSize - batch.length - 1, by omega⟩
        have hk2 : maxSize - (batch ++ [a]).length = k := by
          simp only [List.length_append, List.length_singleton]
          omega
        rw [hk2, List.map_cons]
        rw [hk, List.take_succ_cons]
        simp
      · have hfull : maxSize ≤ batch.length := by
          by_contra hlen
          exact hg ⟨hnow, Nat.lt_of_not_le hlen⟩
        rw [Nat.sub_eq_zero_of_le hfull]
        simp

theorem workerRun_dispatch_ne_nil (cycles : List (List PendingRequest))
    (b : List PendingRequest) (hb : WorkerAction.dispatch b ∈ workerRun cycles) :
    b ≠ [] := by
  rcases List.mem_map.1 hb with ⟨c, _, hc⟩
  by_cases hce : c.isEmpty
  · simp [workerStep, hce] at hc
  · simp only [workerStep, hce, Bool.false_eq_true, if_false] at hc
    have : c = b := by injection hc
    intro hbnil
    rw [← this] at hbnil
    simp [hbnil] at hce

/-! The claims. -/

/-- C1: isolation across requests — `zip(*batch)` in `_process_batch` pairs each
task with exactly the response channel that was enqueued with its own prompt,
and on a dispatch whose batch carries pairwise-distinct channels (each request
gets its own fresh channel), the values delivered to the channel of request
`i` are exactly the writes of the upstream call for request `i`; no write of
any sibling call reaches it. -/
theorem isolation_across_requests
    (batch : List PendingRequest) (outcomes : List UpstreamOutcome)
    (hlen : batch.length = outcomes.length)
    (hnodup : (batch.map PendingRequest.sink).Nodup)
    (result : List (Nat × List (Option String)))
    (hres : processBatch batch outcomes = some result)
    (i : Nat) (hi : i < batch.length) :
    batchTasks (batch.map PendingRequest.prompt) (batch.map PendingRequest.sink)
        = batch.map (fun r => (r.prompt, r.sink))
    ∧ sinkWrites result batch[i].sink = channelWrites (outcomes[i]) :=
  ⟨batchTasks_unzip batch, dispatch_routes batch outcomes hlen hnodup result hres i hi⟩

/-- Witness for C1 at a concrete one-request batch with a failing upstream call. -/
theorem isolation_across_requests_witness :
    sinkWrites [(3, [some "x", some ("Error: " ++ "boom"), none])] 3
      = channelWrites (.failure ["x"] "boom") := by
  have h := isolation_across_requests [⟨"p", 3⟩] [.failure ["x"] "boom"] rfl
      (by decide) [(3, [some "x", some ("Error: " ++ "boom"), none])] rfl 0 (by decide)
  simpa using h.2

/-- C2: sink terminal protocol — on every execution path
`_stream_single_request` writes exactly one end-of-stream marker `None` to its
response channel, as the final value: after the body fragments on success, and
right after exactly one error-as-fragment on upstream failure; no fragment is
written after the marker, so the read loop of the consumer terminates. -/
theorem sink_terminal_protocol (o : UpstreamOutcome) :
    (∃ frags : List String, channelWrites o = frags.map some ++ [none])
    ∧ (channelWrites o).countP (fun v => v.isNone) = 1
    ∧ (channelWrites o).getLast? = some none
    ∧ (∀ lines, o = .success lines →
        channelWrites o = (bodyWrites lines).map some ++ [none])
    ∧ (∀ w msg, o = .failure w msg →
        channelWrites o = (w.map some ++ [some ("Error: " ++ msg)]) ++ [none]) := by
  refine ⟨channelWrites_shape o, ?_, channelWrites_getLast o, ?_, ?_⟩
  · obtain ⟨frags, hf⟩ := channelWrites_shape o
    rw [hf, List.countP_append, List.countP_map]
    simp [Function.comp_def]
  · intro lines h
    subst h
    rfl
  · intro w msg h
    subst h
    simp [channelWrites]

/-- Witness for C2 at a concrete failing outcome. -/
theorem sink_terminal_protocol_witness :
    (channelWrites (.failure ["x"] "boom")).countP (fun v => v.isNone) = 1
    ∧ channelWrites (.failure ["x"] "boom")
        = (List.map some ["x"] ++ [some ("Error: " ++ "boom")]) ++ [none] := by
  have h := sink_terminal_protocol (.failure ["x"] "boom")
  exact ⟨h.2.1, h.2.2.2.2 ["x"] "boom" rfl⟩

/-- C3: failure containment — on a dispatched batch with pairwise-distinct
channels, if the upstream call of request `j` fails, the channel of `j`
receives its already-written fragments, one error-as-fragment and the
end-of-stream marker; every sibling channel receives exactly the writes of
its own upstream call, unchanged; the dispatch covers each request of the
batch with exactly one task (gather returns only after all of them, and
swallows exceptions instead of propagating them to the worker loop), and
every channel trace ends with the terminal marker. -/
theorem failure_containment
    (batch : List PendingRequest) (outcomes : List UpstreamOutcome)
    (hlen : batch.length = outcomes.length)
    (hnodup : (batch.map PendingRequest.sink).Nodup)
    (result : List (Nat × List (Option String)))
    (hres : processBatch batch outcomes = some result)
    (j : Nat) (hj : j < batch.length) (w : List String) (msg : String)
    (hfail : outcomes[j] = .failure w msg) :
    sinkWrites result batch[j].sink
        = w.map some ++ [some ("Error: " ++ msg), none]
    ∧ (∀ i, ∀ hi : i < batch.length, i ≠ j →
        sinkWrites result batch[i].sink = channelWrites (outcomes[i]))
    ∧ result.length = batch.length
    ∧ (∀ i, ∀ hi : i < batch.length,
        (sinkWrites result batch[i].sink).getLast? = some none) := by
  refine ⟨?_, ?_, ?_, ?_⟩
  · rw [dispatch_routes batch outcomes hlen hnodup result hres j hj, hfail]
    rfl
  · intro i hi _
    exact dispatch_routes batch outcomes hlen hnodup result hres i hi
  · have hb : batch ≠ [] := by
      intro h
      rw [h] at hj
      exact absurd hj (by simp)
    rw [processBatch_eq batch outcomes hb, Option.some_inj] at hres
    subst hres
    simp [List.length_zip, ← hlen]
  · intro i hi
    rw [dispatch_routes batch outcomes hlen hnodup result hres i hi]
    exact channelWrites_getLast _

/-- Witness for C3 at a concrete two-request batch whose second call fails. -/
theorem failure_containment_witness :
    sinkWrites [(0, [some "a", none]), (1, [some ("Error: " ++ "boom"), none])] 1
      = [some ("Error: " ++ "boom"), none]
    ∧ sinkWrites [(0, [some "a", none]), (1, [some ("Error: " ++ "boom"), none])] 0
      = channelWrites (.success [.event ["a"]]) := by
  have h := failure_containment [⟨"good", 0⟩, ⟨"bad", 1⟩]
      [.success [.event ["a"]], .failure [] "boom"] rfl (by decide)
      [(0, [some "a", none]), (1, [some ("Error: " ++ "boom"), none])] rfl
      1 (by decide) [] "boom" rfl
  refine ⟨?_, ?_⟩
  · simpa using h.1
  · simpa using h.2.1 0 (by decide) (by decide)

/-- C4: batch collection bound and cutoff policy — a collection cycle returns
at most `maxSize` requests; every returned request arrived strictly before the
deadline `start + bt` (a wait attempt past it times out and the loop breaks);
an empty batch is the valid result when nothing arrives in the window; and
when everything arrives before the deadline the size bound alone cuts the
batch, to exactly the first `maxSize` arrivals — both bounds are re-checked
for every element. -/
theorem batch_collection_bound (bt : ℚ) (maxSize : Nat) (st : ℚ)
    (arrivals : List (ℚ × PendingRequest)) :
    (collectBatch bt maxSize st arrivals).length ≤ maxSize
    ∧ (∀ r ∈ collectBatch bt maxSize st arrivals,
        ∃ t, (t, r) ∈ arrivals ∧ t < st + bt)
    ∧ collectBatch bt maxSize st [] = []
    ∧ (0 < bt → (∀ p ∈ arrivals, p.1 < st + bt) →
        collectBatch bt maxSize st arrivals = (arrivals.map Prod.snd).take maxSize) := by
  refine ⟨?_, ?_, ?_, ?_⟩
  · exact collectGo_length (st + bt) maxSize arrivals st [] (Nat.zero_le _)
  · intro r hr
    rcases collectGo_mem (st + bt) maxSize arrivals st [] r hr with h | h
    · simp at h
    · exact h
  · simp [collectBatch, collectGo]
  · intro hbt hall
    have hst : st < st + bt := by linarith
    simpa using collectGo_take (st + bt) maxSize arrivals st [] hst hall

/-- Witness for C4 with the configured bounds, one early arrival and an
empty trace. -/
theorem batch_collection_bound_witness :
    (collectBatch batch_timeout max_batch_size 0
        [((0 : ℚ), (⟨"p", 7⟩ : PendingRequest))]).length ≤ max_batch_size
    ∧ collectBatch batch_timeout max_batch_size 0 [] = []
    ∧ collectBatch batch_timeout max_batch_size 0
        [((0 : ℚ), (⟨"p", 7⟩ : PendingRequest))] = [⟨"p", 7⟩] := by
  have h := batch_collection_bound batch_timeout max_batch_size 0
      [((0 : ℚ), (⟨"p", 7⟩ : PendingRequest))]
  have hall : ∀ p ∈ [((0 : ℚ), (⟨"p", 7⟩ : PendingRequest))], p.1 < 0 + batch_timeout := by
    intro p hp
    simp only [List.mem_singleton] at hp
    subst hp
    norm_num [batch_timeout]
  have h4 := h.2.2.2 (by norm_num [batch_timeout]) hall
  exact ⟨h.1, h.2.2.1, by simpa using h4⟩

/-- C5: streaming facade contract — `stream_inference` creates a fresh response
channel (the allocation counter value, then bumped), appends
`(prompt, channel)` to the queue of the given model — created on first
reference, other model queues untouched — and then yields every value read
from the channel until the end-of-stream marker, after which nothing further
is yielded; an error-as-fragment written before the marker is surfaced as an
ordinary yielded value, terminal and followed by exhaustion. -/
theorem streaming_facade_contract (s : QHState) (model prompt other : String)
    (fs : List String) (rest : List (Option String))
    (w : List String) (msg : String) :
    (submit s model prompt).2 = s.next_channel
    ∧ (submit s model prompt).1.next_channel = s.next_channel + 1
    ∧ (submit s model prompt).1.requests_queues model
        = s.requests_queues model ++ [(prompt, s.next_channel)]
    ∧ (other ≠ model →
        (submit s model prompt).1.requests_queues other = s.requests_queues other)
    ∧ readLoop (fs.map some ++ none :: rest) = fs
    ∧ readLoop (channelWrites (.failure w msg)) = w ++ ["Error: " ++ msg] := by
  refine ⟨rfl, rfl, by simp [submit], ?_, readLoop_closed fs rest, ?_⟩
  · intro hne
    simp [submit, hne]
  · show readLoop (w.map some ++ (some ("Error: " ++ msg) :: [none])) = _
    rw [readLoop_map_some]
    simp [readLoop]

/-- Witness for C5 from the initial handler state. -/
theorem streaming_facade_contract_witness :
    (submit QHState.initial "m" "p").2 = 0
    ∧ (submit QHState.initial "m" "p").1.requests_queues "m" = [("p", 0)]
    ∧ (submit QHState.initial "m" "p").1.requests_queues "other" = []
    ∧ readLoop (["a", "b"].map some ++ none :: [some "z"]) = ["a", "b"]
    ∧ readLoop (channelWrites (.failure ["x"] "boom"))
        = ["x"] ++ ["Error: " ++ "boom"] := by
  have h := streaming_facade_contract QHState.initial "m" "p" "other" ["a", "b"]
      [some "z"] ["x"] "boom"
  refine ⟨h.1, ?_, ?_, h.2.2.2.2.1, h.2.2.2.2.2⟩
  · simpa [QHState.initial] using h.2.2.1
  · simpa [QHState.initial] using h.2.2.2.1 (by decide)

/-- C6: worker loop state machine — the loop performs exactly one action per
collection cycle and has no terminal state; a non-empty batch is handed to a
spawned, non-awaited dispatch and the loop proceeds directly to the next
cycle; an empty batch makes the worker sleep the fixed 0.1 s interval; and no
dispatched batch is ever empty. -/
theorem worker_loop_state_machine (cycles : List (List PendingRequest))
    (c : List PendingRequest) :
    (workerRun cycles).length = cycles.length
    ∧ workerRun (c :: cycles) = workerStep c :: workerRun cycles
    ∧ (c ≠ [] → workerStep c = .dispatch c)
    ∧ (c = [] → workerStep c = .idle (1/10))
    ∧ (∀ b, WorkerAction.dispatch b ∈ workerRun cycles → b ≠ []) := by
  refine ⟨by simp [workerRun], rfl, ?_, ?_,
    fun b hb => workerRun_dispatch_ne_nil cycles b hb⟩
  · intro h
    simp [workerStep, h]
  · intro h
    subst h
    rfl

/-- Witness for C6 at one non-empty and one empty cycle. -/
theorem worker_loop_state_machine_witness :
    workerStep [⟨"p", 0⟩] = .dispatch [⟨"p", 0⟩]
    ∧ (workerRun [[⟨"p", 0⟩], []]).length = 2 := by
  have h := worker_loop_state_machine [[⟨"p", 0⟩], []] [⟨"p", 0⟩]
  exact ⟨h.2.2.1 (by simp), by simpa using h.1⟩

/-- C7 (counterexample): the batch cutoff does not use the configured
`BATCH_TIMEOUT`: in an environment that sets it to 0.5, `Settings` reads 0.5
while `QueueHandler.__init__` still sets the hard-coded literal 0.1 — the
handler never consults `Settings`. -/
theorem config_surface_counterexample :
    batch_timeout ≠ Settings.BATCH_TIMEOUT ⟨some (1/2), none, none, none⟩ := by
  norm_num [batch_timeout, Settings.BATCH_TIMEOUT]

/-- C7 (amended): the batching and sampling parameters of the core are
hard-coded literals in `queue_handler.py` — batch timeout 0.1 s, max batch
size 5, temperature 0.7, max tokens 500. They equal the `Settings` values of
a default (unset) environment, but are not read from `Settings`: every
upstream call uses temperature 0.7 and max tokens 500, and no request-level
override exists. -/
theorem config_surface_hardcoded (model prompt : String) :
    batch_timeout = Settings.BATCH_TIMEOUT ⟨none, none, none, none⟩
    ∧ max_batch_size = Settings.MAX_BATCH_SIZE ⟨none, none, none, none⟩
    ∧ (mkPayload model prompt).temperature
        = Settings.DEFAULT_TEMPERATURE ⟨none, none, none, none⟩
    ∧ (mkPayload model prompt).max_tokens
        = Settings.DEFAULT_MAX_TOKENS ⟨none, none, none, none⟩
    ∧ (mkPayload model prompt).stream = true
    ∧ (mkPayload model prompt).model = model
    ∧ (mkPayload model prompt).content = prompt :=
  ⟨rfl, rfl, rfl, rfl, rfl, rfl, rfl⟩

/-- Witness for the amended C7 at a concrete call. -/
theorem config_surface_hardcoded_witness :
    (mkPayload "qwen" "hi").temperature
        = Settings.DEFAULT_TEMPERATURE ⟨none, none, none, none⟩
    ∧ (mkPayload "qwen" "hi").max_tokens
        = Settings.DEFAULT_MAX_TOKENS ⟨none, none, none, none⟩ :=
  ⟨(config_surface_hardcoded "qwen" "hi").2.2.1,
   (config_surface_hardcoded "qwen" "hi").2.2.2.1⟩

/-- C8: order preservation within one stream — the FIFO channel holds values in
insertion order (putting a trace leaves exactly that trace, front first), so
for a successful call the tokens `stream_inference` yields are exactly the
fragments the upstream call emitted, in emission order; in particular the
yielded sequence is an order-preserving subsequence of the upstream delta
contents. -/
theorem order_preservation_within_stream (lines : List SSELine)
    (ws : List (Option String)) :
    (Chan.putAll ⟨[]⟩ ws).items = ws
    ∧ Chan.readAll (Chan.putAll ⟨[]⟩ (channelWrites (.success lines)))
        = bodyWrites lines
    ∧ (bodyWrites lines).Sublist (upstreamContents lines) := by
  refine ⟨by simp [Chan.putAll_items], ?_, ?_⟩
  · rw [readAll_putAll]
    exact readLoop_closed (bodyWrites lines) []
  · rw [bodyWrites_filter]
    exact List.filter_sublist _

/-- Witness for C8 at a concrete two-line upstream trace. -/
theorem order_preservation_witness :
    Chan.readAll (Chan.putAll ⟨[]⟩
        (channelWrites (.success [.event ["a", "", "b"], .skip])))
      = bodyWrites [.event ["a", "", "b"], .skip] :=
  (order_preservation_within_stream [.event ["a", "", "b"], .skip] []).2.1

/-- C9: empty fragments are silently dropped — only a non-empty delta content
is written to the response channel, so the token sequence delivered to the
caller equals the upstream content sequence with all empty items removed, and
the empty string is never yielded. -/
theorem empty_fragments_dropped (lines : List SSELine) :
    bodyWrites lines = (upstreamContents lines).filter (fun c => c ≠ "")
    ∧ Chan.readAll (Chan.putAll ⟨[]⟩ (channelWrites (.success lines)))
        = (upstreamContents lines).filter (fun c => c ≠ "")
    ∧ "" ∉ Chan.readAll (Chan.putAll ⟨[]⟩ (channelWrites (.success lines))) := by
  have hread : Chan.readAll (Chan.putAll ⟨[]⟩ (channelWrites (.success lines)))
      = bodyWrites lines := by
    rw [readAll_putAll]
    exact readLoop_closed (bodyWrites lines) []
  refine ⟨bodyWrites_filter lines, ?_, ?_⟩
  · rw [hread, bodyWrites_filter]
  · rw [hread, bodyWrites_filter]
    intro hmem
    have := List.of_mem_filter hmem
    simp at this

/-- Witness for C9 at a concrete trace holding empty contents. -/
theorem empty_fragments_dropped_witness :
    bodyWrites [.event ["a", "", "b"], .skip, .event [""]]
      = (upstreamContents [.event ["a", "", "b"], .skip, .event [""]]).filter
          (fun c => c ≠ "") :=
  (empty_fragments_dropped [.event ["a", "", "b"], .skip, .event [""]]).1

/-- C10: non-empty dispatch precondition — the `zip(*batch)` unpacking of
`_process_batch` fails on an empty batch (no result value), and every batch
the worker loop dispatches is non-empty (guarded by `if batch:`), so the
dispatch of a worker-provided batch always has a value. -/
theorem nonempty_dispatch_precondition (outcomes : List UpstreamOutcome)
    (cycles : List (List PendingRequest)) (b : List PendingRequest)
    (hb : WorkerAction.dispatch b ∈ workerRun cycles) :
    processBatch [] outcomes = none
    ∧ (processBatch b outcomes).isSome := by
  refine ⟨rfl, ?_⟩
  have hne := workerRun_dispatch_ne_nil cycles b hb
  cases b with
  | nil => exact absurd rfl hne
  | cons r rest => simp [processBatch, unzipBatch]

/-- Witness for C10 at a concrete one-element cycle. -/
theorem nonempty_dispatch_precondition_witness :
    processBatch [] [] = none
    ∧ (processBatch [⟨"p", 0⟩] []).isSome :=
  nonempty_dispatch_precondition [] [[⟨"p", 0⟩]] [⟨"p", 0⟩]
    (by simp [workerRun, workerStep])

end NeuralRipper
